import Mathlib

/-!
Verification of the CSV import/export and reconciliation logic of
`src/hooks/useAccountsImportExport.tsx` against its specification.

The embedding below translates the TypeScript source into Lean:
JavaScript strings become `String`, `null`/`undefined` become `none`,
and the JavaScript truthiness convention for string-valued fields
(`"" `, `null` and `undefined` are falsy) is captured by collapsing the
empty string into `none` where the source relies on truthiness.
Asynchronous persistence calls are modelled by an explicit state of
stored entities together with oracles for store-assigned identifiers
and for the success of each mutation call.
-/

namespace AccountsCSV

/-- `validStatuses` from the source (line 5). -/
def validStatuses : List String :=
  ["New", "Working", "Warm", "Hot", "Nurture", "Closed-Won", "Closed-Lost"]

/-- `validTags` from the source (lines 6-11). -/
def validTags : List String :=
  ["AUTOSAR", "Adaptive AUTOSAR", "Embedded Systems", "BSW", "ECU", "Zone Controller",
   "HCP", "CI/CD", "V&V Testing", "Integration", "Software Architecture", "LINUX",
   "QNX", "Cybersecurity", "FuSa", "OTA", "Diagnostics", "Vehicle Network",
   "Vehicle Architecture", "Connected Car", "Platform", "µC/HW"]

/-- JavaScript `s.trim()`: leading and trailing whitespace stripped. -/
def trimStr (s : String) : String :=
  String.mk (((s.data.dropWhile Char.isWhitespace).reverse.dropWhile Char.isWhitespace).reverse)

/-- JavaScript `s.split(re)` for a single-character class `re`: cut the
string at every character satisfying `p` (adjacent separators produce empty
pieces, and the empty string yields `[""]`). -/
def splitAux (p : Char → Bool) : List Char → String → List String
  | [], cur => [cur]
  | c :: cs, cur => if p c then cur :: splitAux p cs "" else splitAux p cs (cur.push c)

/-- Split a string at every character satisfying `p`. -/
def splitStr (p : Char → Bool) (s : String) : List String :=
  splitAux p s.data ""

/-- The character loop of `parseCSVLine` (source lines 17-35): a double quote
toggles `inQuotes`, a comma outside quotes pushes the trimmed current field,
any other character is appended to the current field; at end of input the
trimmed current field is pushed. -/
def parseCSVChars : List Char → String → Bool → List String
  | [], current, _ => [trimStr current]
  | c :: cs, current, inQuotes =>
    if c == '"' then
      parseCSVChars cs current (!inQuotes)
    else if c == ',' && !inQuotes then
      trimStr current :: parseCSVChars cs "" inQuotes
    else
      parseCSVChars cs (current.push c) inQuotes

/-- `parseCSVLine` from the source (lines 17-35). -/
def parseCSVLine (line : String) : List String :=
  parseCSVChars line.data "" false

/-- One step of the character-by-character scan as the specification words it:
state is (completed fields, current field, in-quotes flag). -/
def scanStep : List String × String × Bool → Char → List String × String × Bool
  | (fields, current, inQuotes), c =>
    if c == '"' then
      (fields, current, !inQuotes)
    else if c == ',' && !inQuotes then
      (fields ++ [trimStr current], "", inQuotes)
    else
      (fields, current.push c, inQuotes)

/-- The specification's description of the line parser: a single left-to-right
scan over the characters, appending the final accumulated field at end of
line. -/
def parseCSVLineSpec (line : String) : List String :=
  match line.data.foldl scanStep ([], "", false) with
  | (fields, current, _) => fields ++ [trimStr current]

/-- `values[idx] || null` (source line 62): an out-of-range access yields
`undefined` and an empty string is falsy, so both become `null`. -/
def getVal (values : List String) (idx : Nat) : Option String :=
  match values[idx]? with
  | none => none
  | some v => if v = "" then none else some v

/-- The `headers.forEach` loop of the record builder (source lines 61-63):
sequential assignment `record[header] = values[idx] || null`, a later
assignment overwriting an earlier one for the same key. -/
def assignFields : List String → Nat → List String → (String → Option String) → String → Option String
  | [], _, _, rec => rec
  | h :: hs, idx, values, rec =>
    assignFields hs (idx + 1) values (fun k => if k = h then getVal values idx else rec k)

/-- The raw record built from one data row (source lines 59-63). -/
def buildRecord (headers values : List String) : String → Option String :=
  assignFields headers 0 values (fun _ => none)

/-- Index of the last occurrence of `key` in `headers` (the occurrence whose
assignment wins in the `forEach` loop). -/
def lastIdxOf : List String → String → Option Nat
  | [], _ => none
  | h :: hs, key =>
    match lastIdxOf hs key with
    | some i => some (i + 1)
    | none => if h = key then some 0 else none

/-- JavaScript `a || b` on nullable strings (empty strings have already been
collapsed to `none` by `getVal`). -/
def jsOr (a b : Option String) : Option String :=
  match a with
  | some v => some v
  | none => b

/-- `record.company_name || record.name || record.company` (source line 66). -/
def companyNameOf (r : String → Option String) : Option String :=
  jsOr (r "company_name") (jsOr (r "name") (r "company"))

/-- Status validation (source lines 73-76). -/
def statusOf (r : String → Option String) : String :=
  let status := match r "status" with
    | some s => s
    | none => "New"
  if validStatuses.contains status then status else "New"

/-- The separator class `[,;]` of the tags split (source line 81). -/
def isTagSep (c : Char) : Bool :=
  c == ',' || c == ';'

/-- Tag parsing (source lines 79-83): split on comma or semicolon, trim each
piece, keep only members of `validTags`; an absent tags field yields `[]`. -/
def tagsOf (r : String → Option String) : List String :=
  match r "tags" with
  | none => []
  | some s => ((splitStr isTagSep s).map trimStr).filter (fun t => validTags.contains t)

/-- The record pushed for one valid data row (source lines 88-104). -/
structure AccountRecord where
  id : Option String
  company_name : String
  email : Option String
  region : Option String
  country : Option String
  website : Option String
  company_type : Option String
  tags : Option (List String)
  status : String
  notes : Option String
  industry : Option String
  phone : Option String
  created_by : String
  account_owner : String
  modified_by : String
deriving DecidableEq, Repr

/-- Building the validated record for one data row (source lines 66-104):
`none` when the natural key is missing (the row is an error row). -/
def buildAccount (r : String → Option String) (userId : String) : Option AccountRecord :=
  match companyNameOf r with
  | none => none
  | some companyName =>
    some {
      id := r "id"
      company_name := companyName
      email := r "email"
      region := r "region"
      country := r "country"
      website := r "website"
      company_type := r "company_type"
      tags := (let tags := tagsOf r; if tags.isEmpty then none else some tags)
      status := statusOf r
      notes := r "notes"
      industry := r "industry"
      phone := r "phone"
      created_by := (r "created_by").getD userId
      account_owner := (r "account_owner").getD userId
      modified_by := userId
    }

/-- The data-row loop (source lines 57-105), with `i` the index into the
filtered line array (so the error message number `i + 1` is the row's 1-based
position among the non-blank lines). Returns (records, errors) in source
order. -/
def processRowsAux (headers : List String) (userId : String) : Nat → List String → List AccountRecord × List String
  | _, [] => ([], [])
  | i, line :: rest =>
    let r := buildRecord headers (parseCSVLine line)
    let res := processRowsAux headers userId (i + 1) rest
    match buildAccount r userId with
    | none => (res.1, ("Row " ++ toString (i + 1) ++ ": Missing company_name") :: res.2)
    | some a => (a :: res.1, res.2)

/-- Validation of all data rows: the loop of source lines 57-105 starts at
line index 1 (the first data row). -/
def processRows (headers : List String) (dataLines : List String) (userId : String) : List AccountRecord × List String :=
  processRowsAux headers userId 1 dataLines

/-- Header normalization (source line 53): lower-case, then every character
outside `[a-z0-9_]` replaced by an underscore. -/
def normalizeHeader (h : String) : String :=
  String.mk ((h.data.map Char.toLower).map (fun c =>
    if ('a' ≤ c && c ≤ 'z') || ('0' ≤ c && c ≤ '9') || c == '_' then c else '_'))

/-- `text.split('\n').filter(line => line.trim())` (source line 47). -/
def splitLines (text : String) : List String :=
  (splitStr (fun c => c == '\n') text).filter (fun line => trimStr line ≠ "")

/-- The row of the `accounts` table that the reconciliation loop inspects:
the store-assigned identifier and the natural key used for matching. -/
structure StoredEntity where
  id : String
  company_name : String
deriving DecidableEq, Repr

/-- `select('id').eq('id', id).maybeSingle()` (source lines 120-124). -/
def findById (db : List StoredEntity) (i : String) : Option StoredEntity :=
  db.find? (fun e => e.id == i)

/-- `select('id').eq('company_name', ...).maybeSingle()` (source lines 138-142). -/
def findByName (db : List StoredEntity) (n : String) : Option StoredEntity :=
  db.find? (fun e => e.company_name == n)

/-- `const ⦃ id, ...recordWithoutId ⦄ = record` (source line 116): the payload
sent to the store never carries the record's identifier field. -/
def stripId (r : AccountRecord) : AccountRecord :=
  { r with id := none }

/-- JavaScript truthiness of the destructured `id` (source line 119): `null`
and the empty string are both falsy. -/
def jsStr (o : Option String) : Option String :=
  match o with
  | some v => if v = "" then none else some v
  | none => none

/-- A mutation issued to the persistence service by the reconciliation loop. -/
inductive DbOp where
  | updateById (eid : String) (payload : AccountRecord)
  | insertRec (payload : AccountRecord)
deriving DecidableEq, Repr

/-- Whether a mutation is an update (as opposed to an insert). -/
def DbOp.isUpdate : DbOp → Bool
  | .updateById _ _ => true
  | .insertRec _ => false

/-- Effect of a successful `update(...).eq('id', eid)` on the stored rows. -/
def applyUpdate (db : List StoredEntity) (eid : String) (r : AccountRecord) : List StoredEntity :=
  db.map (fun e => if e.id == eid then { e with company_name := r.company_name } else e)

/-- State threaded through the reconciliation loop (source lines 112-158):
the stored rows, the mutations issued so far, the two running tallies, and a
counter feeding the store's identifier oracle. -/
structure ImportState where
  db : List StoredEntity
  ops : List DbOp
  successCount : Nat
  updateCount : Nat
  fresh : Nat
deriving Repr

/-- One iteration of the reconciliation loop (source lines 115-158): try the
identifier lookup when an identifier is present; on a hit, update by that
identifier; otherwise fall through to the natural-key lookup, updating on a
hit and inserting the identifier-stripped record on a miss. `mutOk` is
whether the single mutation call this record issues reports no error; only a
successful call bumps its tally (`if (!error) ...Count++`). -/
def stepRecord (assignId : Nat → String) (mutOk : Bool) (st : ImportState) (r : AccountRecord) : ImportState :=
  match (jsStr r.id).bind (findById st.db) with
  | some e =>
    { st with
      ops := st.ops ++ [.updateById e.id (stripId r)]
      db := if mutOk then applyUpdate st.db e.id r else st.db
      updateCount := if mutOk then st.updateCount + 1 else st.updateCount }
  | none =>
    match findByName st.db r.company_name with
    | some e =>
      { st with
        ops := st.ops ++ [.updateById e.id (stripId r)]
        db := if mutOk then applyUpdate st.db e.id r else st.db
        updateCount := if mutOk then st.updateCount + 1 else st.updateCount }
    | none =>
      { st with
        ops := st.ops ++ [.insertRec (stripId r)]
        db := if mutOk then st.db ++ [⟨assignId st.fresh, r.company_name⟩] else st.db
        successCount := if mutOk then st.successCount + 1 else st.successCount
        fresh := st.fresh + 1 }

/-- The whole reconciliation loop over the validated records. `mutOks k` is
the success of the mutation issued for the k-th record. -/
def runRecords (assignId : Nat → String) (mutOks : Nat → Bool) : Nat → ImportState → List AccountRecord → ImportState
  | _, st, [] => st
  | k, st, r :: rs => runRecords assignId mutOks (k + 1) (stepRecord assignId (mutOks k) st r) rs

/-- Fatal error message for an input with fewer than two non-blank lines
(source line 50). -/
def msgTooFewLines : String :=
  "CSV file must have headers and at least one data row"

/-- Fatal error message when no record survives validation (source line 108). -/
def msgNoValidRecords : String :=
  "No valid records found in CSV"

/-- `handleImport` (source lines 37-175), persistence effects made explicit:
split and filter the lines, require at least two, normalize the headers from
the first line, validate the data rows, require at least one valid record,
then run the reconciliation loop. A thrown error is an `Except.error`
carrying the message; both fatal paths occur before any mutation is issued. -/
def handleImport (text userId : String) (db0 : List StoredEntity)
    (assignId : Nat → String) (mutOks : Nat → Bool) : Except String ImportState :=
  let lines := splitLines text
  if lines.length < 2 then
    .error msgTooFewLines
  else
    let headers := (parseCSVLine lines.headI).map normalizeHeader
    let res := processRows headers (lines.drop 1) userId
    if res.1.length = 0 then
      .error msgNoValidRecords
    else
      .ok (runRecords assignId mutOks 0 ⟨db0, [], 0, 0, 0⟩ res.1)

/-- The value of one column of one exported row, before serialization:
a string, the tags array, or SQL NULL. -/
inductive FieldValue where
  | str (v : String)
  | arr (vs : List String)
  | null
deriving DecidableEq, Repr

/-- `strValue.replace(/"/g, '""')` (source line 211): each double quote is
doubled. -/
def doubleQuotes (s : String) : String :=
  String.mk (s.data.foldr (fun c acc => if c == '"' then '"' :: '"' :: acc else c :: acc) [])

/-- The quoting condition of source line 210. -/
def needsQuoting (s : String) : Bool :=
  s.data.contains ',' || s.data.contains '"' || s.data.contains '\n'

/-- Source lines 209-213: wrap in double quotes, doubling internal quotes,
exactly when the value contains a comma, a double quote or a newline. -/
def escapeCSVField (s : String) : String :=
  if needsQuoting s then "\"" ++ doubleQuotes s ++ "\"" else s

/-- JavaScript `String(value)` for the values that can reach line 209: an
array stringifies as its elements joined by commas. -/
def FieldValue.toStr : FieldValue → String
  | .str v => v
  | .arr vs => String.intercalate "," vs
  | .null => ""

/-- Serialization of one field of one exported row (source lines 203-214):
the tags array is first joined with semicolons, `null`/`undefined` becomes
the empty field, and any other value is rendered and quoted as needed. -/
def serializeField (header : String) (value : FieldValue) : String :=
  let value := if header = "tags" then
      match value with
      | .arr vs => .str (String.intercalate ";" vs)
      | v => v
    else value
  match value with
  | .null => ""
  | v => escapeCSVField v.toStr

/-- The fixed export header list (source lines 194-198). -/
def exportHeaders : List String :=
  ["id", "company_name", "email", "company_type", "industry", "tags", "country",
   "status", "website", "region", "notes", "phone",
   "account_owner", "created_by", "modified_by", "created_at", "updated_at"]

/-- The CSV lines produced by `handleExport` (source lines 200-216): the fixed
header row first, then one serialized row per exported entity. -/
def exportCSVLines (rows : List (String → FieldValue)) : List String :=
  (String.intercalate "," exportHeaders) ::
    rows.map (fun row =>
      String.intercalate "," (exportHeaders.map (fun h => serializeField h (row h))))

/-! ## Helper lemmas -/

/-- The recursive character loop agrees with the left fold of `scanStep`,
for any prefix of already-completed fields. -/
theorem parseCSVChars_eq_foldl (cs : List Char) : ∀ (cur : String) (q : Bool) (acc : List String),
    acc ++ parseCSVChars cs cur q =
      (match cs.foldl scanStep (acc, cur, q) with
       | (fields, current, _) => fields ++ [trimStr current]) := by
  induction cs with
  | nil =>
    intro cur q acc
    simp [parseCSVChars]
  | cons c cs ih =>
    intro cur q acc
    simp only [parseCSVChars, List.foldl_cons, scanStep]
    by_cases h1 : (c == '"') = true
    · simp only [h1, if_true]
      exact ih cur (!q) acc
    · simp only [h1, if_false, Bool.false_eq_true]
      by_cases h2 : (c == ',' && !q) = true
      · simp only [h2, if_true]
        have := ih "" q (acc ++ [trimStr cur])
        simpa [List.append_assoc] using this
      · simp only [h2, if_false, Bool.false_eq_true]
        exact ih (cur.push c) q acc

/-- `assignFields` realizes last-assignment-wins lookup: the value of `k` is
`values[idx + j] || null` for the last occurrence `j` of `k` among the
remaining headers, else whatever was assigned before. -/
theorem assignFields_spec (hs : List String) :
    ∀ (idx : Nat) (values : List String) (rec : String → Option String) (k : String),
      assignFields hs idx values rec k =
        (match lastIdxOf hs k with
         | some j => getVal values (idx + j)
         | none => rec k) := by
  induction hs with
  | nil =>
    intro idx values rec k
    simp [assignFields, lastIdxOf]
  | cons h hs ih =>
    intro idx values rec k
    simp only [assignFields, lastIdxOf]
    rw [ih]
    cases hL : lastIdxOf hs k with
    | some j =>
      simp only [hL]
      have : idx + 1 + j = idx + (j + 1) := by omega
      rw [this]
    | none =>
      simp only [hL]
      by_cases hk : k = h
      · simp [hk]
      · have : ¬ h = k := fun hh => hk hh.symm
        simp [hk, this]

/-- If `k` never appears among the headers, no assignment targets it. -/
theorem lastIdxOf_eq_none_of_not_mem {hs : List String} {k : String}
    (h : k ∉ hs) : lastIdxOf hs k = none := by
  induction hs with
  | nil => rfl
  | cons x xs ih =>
    simp only [List.mem_cons, not_or] at h
    simp only [lastIdxOf, ih h.2]
    have : ¬ x = k := fun hh => h.1 hh.symm
    simp [this]

/-- `values[idx] || null` never yields the empty string. -/
theorem getVal_ne_some_empty (values : List String) (idx : Nat) :
    getVal values idx ≠ some "" := by
  unfold getVal
  cases h : values[idx]? with
  | none => simp
  | some v =>
    by_cases hv : v = "" <;> simp [hv]

/-! ## Claim theorems -/

/-- Claim C1: for every input line, `parseCSVLine` returns the field sequence
produced by a single character-by-character scan in which a double quote
toggles an in-quotes flag, a comma outside quotes ends the current field
(trimmed), every other character is appended to the current field, and the
final accumulated field (trimmed) is appended at end of line; in particular
parsing `a,"b,c",d` yields exactly `["a", "b,c", "d"]`. -/
theorem parseCSVLine_scan_correct :
    (∀ line : String, parseCSVLine line = parseCSVLineSpec line) ∧
    parseCSVLine "a,\"b,c\",d" = ["a", "b,c", "d"] := by
  constructor
  · intro line
    have h := parseCSVChars_eq_foldl line.data "" false []
    simpa [parseCSVLine, parseCSVLineSpec] using h
  · decide

/-- Claim C10: the record builder zips parsed values against headers by
position and is total on shape mismatches: a key that is not a header maps to
`none` (parsed values beyond the last header are discarded), a key whose
(winning, last) header position is beyond the end of the value list maps to
`none`, a key whose positional value is the empty string maps to `none`,
an in-range non-empty value is stored as supplied, and an empty string is
never stored as a field value. -/
theorem buildRecord_total_on_shape :
    ∀ (headers values : List String) (key : String),
      buildRecord headers values key ≠ some "" ∧
      (key ∉ headers → buildRecord headers values key = none) ∧
      (∀ j, lastIdxOf headers key = some j →
        (values.length ≤ j → buildRecord headers values key = none) ∧
        (values[j]? = some "" → buildRecord headers values key = none) ∧
        (∀ v, values[j]? = some v → v ≠ "" → buildRecord headers values key = some v)) := by
  intro headers values key
  have hb : buildRecord headers values key =
      (match lastIdxOf headers key with
       | some j => getVal values j
       | none => none) := by
    unfold buildRecord
    rw [assignFields_spec]
    cases lastIdxOf headers key with
    | some j => simp
    | none => rfl
  refine ⟨?_, ?_, ?_⟩
  · rw [hb]
    cases h : lastIdxOf headers key with
    | some j => simpa using getVal_ne_some_empty values j
    | none => simp
  · intro hmem
    rw [hb, lastIdxOf_eq_none_of_not_mem hmem]
  · intro j hj
    refine ⟨?_, ?_, ?_⟩
    · intro hlen
      rw [hb, hj]
      have : values[j]? = none := List.getElem?_eq_none hlen
      simp [getVal, this]
    · intro hv
      rw [hb, hj]
      simp [getVal, hv]
    · intro v hv hne
      rw [hb, hj]
      simp [getVal, hv, hne]

/-- Claim C10 witness: a key absent from the headers maps to `none`, a key
whose column holds the empty string maps to `none`, and a key whose column
holds a non-empty value maps to that value. -/
theorem buildRecord_total_on_shape_w :
    buildRecord ["a", "b"] ["x"] "c" = none ∧
    buildRecord ["a", "b"] ["x", ""] "b" = none ∧
    buildRecord ["a", "b"] ["x", "y"] "b" = some "y" :=
  ⟨(buildRecord_total_on_shape ["a", "b"] ["x"] "c").2.1 (by decide),
   ((buildRecord_total_on_shape ["a", "b"] ["x", ""] "b").2.2 1 (by decide)).2.1 (by decide),
   ((buildRecord_total_on_shape ["a", "b"] ["x", "y"] "b").2.2 1 (by decide)).2.2 "y" (by decide) (by decide)⟩

/-- Claim C4: a data row in which none of the natural-key aliases yields a
value is excluded from the validated records, adds exactly one error message
carrying the row's 1-based line number (`i + 1` for the row at index `i` of
the non-blank line array), and processing continues over the remaining rows
unchanged. -/
theorem missing_natural_key_row_skipped :
    ∀ (headers : List String) (userId line : String) (rest : List String) (i : Nat),
      companyNameOf (buildRecord headers (parseCSVLine line)) = none →
      processRowsAux headers userId i (line :: rest) =
        ((processRowsAux headers userId (i + 1) rest).1,
         ("Row " ++ toString (i + 1) ++ ": Missing company_name") ::
           (processRowsAux headers userId (i + 1) rest).2) := by
  intro headers userId line rest i h
  simp [processRowsAux, buildAccount, h]

/-- Claim C4 witness: a data row with an empty natural key is skipped with
the message `Row 2: ...` while the following row is still validated. -/
theorem missing_natural_key_row_skipped_w :
    processRowsAux ["company_name"] "u" 1 [",", "Acme"] =
      ((processRowsAux ["company_name"] "u" 2 ["Acme"]).1,
       ("Row " ++ toString 2 ++ ": Missing company_name") ::
         (processRowsAux ["company_name"] "u" 2 ["Acme"]).2) :=
  missing_natural_key_row_skipped ["company_name"] "u" "," ["Acme"] 1 (by decide)

/-- A minimal validated record used to exercise the reconciliation loop on
concrete inputs. -/
def mkRecord (i : Option String) (cn : String) : AccountRecord :=
  { id := i, company_name := cn, email := none, region := none, country := none,
    website := none, company_type := none, tags := none, status := "New",
    notes := none, industry := none, phone := none,
    created_by := "u", account_owner := "u", modified_by := "u" }

/-- Claim C2: a record whose identifier matches no stored entity is not
fatal: reconciliation falls through to the exact natural-key lookup, updates
the found entity on a hit, and otherwise inserts a new entity built from the
record with the identifier field stripped. -/
theorem stale_identifier_falls_back :
    ∀ (assignId : Nat → String) (mutOk : Bool) (st : ImportState) (r : AccountRecord) (i : String),
      r.id = some i → i ≠ "" → findById st.db i = none →
      ((∃ e, findByName st.db r.company_name = some e ∧
          (stepRecord assignId mutOk st r).ops = st.ops ++ [.updateById e.id (stripId r)]) ∨
       (findByName st.db r.company_name = none ∧
          (stepRecord assignId mutOk st r).ops = st.ops ++ [.insertRec (stripId r)] ∧
          (stripId r).id = none)) := by
  intro assignId mutOk st r i hid hne hfind
  have hjs : jsStr r.id = some i := by simp [jsStr, hid, hne]
  cases hname : findByName st.db r.company_name with
  | some e =>
    left
    exact ⟨e, rfl, by simp [stepRecord, hjs, hfind, hname]⟩
  | none =>
    right
    exact ⟨rfl, by simp [stepRecord, hjs, hfind, hname], rfl⟩

/-- Claim C2 witness: a record with stale identifier `"2"` and natural key
matching stored entity `"1"` updates that entity instead of failing. -/
theorem stale_identifier_falls_back_w :
    (∃ e, findByName [⟨"1", "Acme"⟩] (mkRecord (some "2") "Acme").company_name = some e ∧
        (stepRecord (fun _ => "n") true ⟨[⟨"1", "Acme"⟩], [], 0, 0, 0⟩
          (mkRecord (some "2") "Acme")).ops =
          [] ++ [.updateById e.id (stripId (mkRecord (some "2") "Acme"))]) ∨
    (findByName [⟨"1", "Acme"⟩] (mkRecord (some "2") "Acme").company_name = none ∧
        (stepRecord (fun _ => "n") true ⟨[⟨"1", "Acme"⟩], [], 0, 0, 0⟩
          (mkRecord (some "2") "Acme")).ops =
          [] ++ [.insertRec (stripId (mkRecord (some "2") "Acme"))] ∧
        (stripId (mkRecord (some "2") "Acme")).id = none) :=
  stale_identifier_falls_back (fun _ => "n") true ⟨[⟨"1", "Acme"⟩], [], 0, 0, 0⟩
    (mkRecord (some "2") "Acme") "2" rfl (by decide) (by decide)

/-- Claim C3 counterexample: a record routed to the update path (the issued
mutation is an update of stored entity `"1"`) whose update call reports
failure does not count toward the update tally, refuting "the record counts
toward the running update tally regardless of whether the update call
reports success or failure". -/
theorem update_tally_not_counted_on_failure :
    (stepRecord (fun _ => "n") false ⟨[⟨"1", "Acme"⟩], [], 0, 0, 0⟩
        (mkRecord (some "1") "Acme")).ops =
      [.updateById "1" (stripId (mkRecord (some "1") "Acme"))] ∧
    (stepRecord (fun _ => "n") false ⟨[⟨"1", "Acme"⟩], [], 0, 0, 0⟩
        (mkRecord (some "1") "Acme")).updateCount = 0 := by
  constructor <;> rfl

/-- Claim C3 (amended): a record routed to the update path counts toward the
running update tally exactly when the update call reports success
(`if (!error) updateCount++`); a failed update call leaves the tally
unchanged. -/
theorem update_tally_counts_only_success :
    ∀ (assignId : Nat → String) (mutOk : Bool) (st : ImportState) (r : AccountRecord) (op : DbOp),
      (stepRecord assignId mutOk st r).ops = st.ops ++ [op] →
      op.isUpdate = true →
      (stepRecord assignId mutOk st r).updateCount =
        (if mutOk then st.updateCount + 1 else st.updateCount) := by
  intro assignId mutOk st r op hops hup
  cases hid : (jsStr r.id).bind (findById st.db) with
  | some e => simp [stepRecord, hid]
  | none =>
    cases hname : findByName st.db r.company_name with
    | some e => simp [stepRecord, hid, hname]
    | none =>
      exfalso
      simp only [stepRecord, hid, hname, List.append_cancel_left_eq] at hops
      have hop : DbOp.insertRec (stripId r) = op := by simpa using hops
      rw [← hop] at hup
      simp [DbOp.isUpdate] at hup

/-- Claim C3 witness: a successful update call bumps the update tally from 0
to 1. -/
theorem update_tally_counts_only_success_w :
    (stepRecord (fun _ => "n") true ⟨[⟨"1", "Acme"⟩], [], 0, 0, 0⟩
        (mkRecord (some "1") "Acme")).updateCount = 1 := by
  have h := update_tally_counts_only_success (fun _ => "n") true
    ⟨[⟨"1", "Acme"⟩], [], 0, 0, 0⟩ (mkRecord (some "1") "Acme")
    (.updateById "1" (stripId (mkRecord (some "1") "Acme"))) (by decide) (by decide)
  simpa using h

/-- Claim C5: an input with fewer than two non-blank lines fails with the
header-row message, an input whose data rows all fail validation fails with
the no-valid-records message, the two messages are distinct, and both paths
produce an `Except.error` — the reconciliation loop (the only producer of
insert or update operations) is never entered. -/
theorem fatal_paths_before_persistence :
    ∀ (text userId : String) (db0 : List StoredEntity) (assignId : Nat → String) (mutOks : Nat → Bool),
      ((splitLines text).length < 2 →
        handleImport text userId db0 assignId mutOks = .error msgTooFewLines) ∧
      (2 ≤ (splitLines text).length →
        (processRows ((parseCSVLine (splitLines text).headI).map normalizeHeader)
            ((splitLines text).drop 1) userId).1 = [] →
        handleImport text userId db0 assignId mutOks = .error msgNoValidRecords) ∧
      msgTooFewLines ≠ msgNoValidRecords := by
  intro text userId db0 assignId mutOks
  refine ⟨?_, ?_, by decide⟩
  · intro h
    simp [handleImport, h]
  · intro h2 hrec
    have hnot : ¬ (splitLines text).length < 2 := by omega
    rw [List.drop_one] at hrec
    simp [handleImport, hnot, hrec]

/-- Claim C5 witness: a header-only file and a file whose single data row
lacks a natural key each fail fatally with their distinct messages. -/
theorem fatal_paths_before_persistence_w :
    handleImport "header" "u" [] (fun _ => "n") (fun _ => true) = .error msgTooFewLines ∧
    handleImport "h\n," "u" [] (fun _ => "n") (fun _ => true) = .error msgNoValidRecords :=
  ⟨(fatal_paths_before_persistence "header" "u" [] (fun _ => "n") (fun _ => true)).1 (by decide),
   (fatal_paths_before_persistence "h\n," "u" [] (fun _ => "n") (fun _ => true)).2.1
     (by decide) (by decide)⟩

/-- Tags resolution as the specification words it (for comparison with the
code-derived builder): split the row's tags field on comma or semicolon, trim
each piece, keep only pieces present in the fixed tag list, and store the
result as absent when nothing survives. -/
def tagsResolutionSpec : Option String → Option (List String)
  | none => none
  | some s =>
    let kept := ((splitStr isTagSep s).map trimStr).filter
      (fun t => validTags.contains t)
    if kept = [] then none else some kept

/-- Claim C6: the tags stored on every validated record are exactly the
specification's resolution of the row's raw tags field, and the field
`AUTOSAR; BSW, Unknown` resolves to exactly `[AUTOSAR, BSW]`. -/
theorem tags_resolution_correct :
    (∀ (r : String → Option String) (userId : String) (a : AccountRecord),
      buildAccount r userId = some a → a.tags = tagsResolutionSpec (r "tags")) ∧
    tagsResolutionSpec (some "AUTOSAR; BSW, Unknown") = some ["AUTOSAR", "BSW"] := by
  constructor
  · intro r userId a h
    cases hc : companyNameOf r with
    | none => simp [buildAccount, hc] at h
    | some cn =>
      simp only [buildAccount, hc, Option.some.injEq] at h
      subst h
      cases hr : r "tags" with
      | none => simp [tagsOf, tagsResolutionSpec, hr]
      | some s =>
        simp only [tagsOf, tagsResolutionSpec, hr]
        by_cases he :
            List.filter (fun t => validTags.contains t) (List.map trimStr (splitStr isTagSep s)) = []
        · simp [he]
        · simp [he, List.isEmpty_iff]
  · decide

/-- Claim C6 witness: a concrete row with tags field
`AUTOSAR; BSW, Unknown` yields a record whose tag set is exactly
`[AUTOSAR, BSW]`. -/
theorem tags_resolution_correct_w :
    (buildAccount (buildRecord ["company_name", "tags"] ["Acme", "AUTOSAR; BSW, Unknown"]) "u").map
      AccountRecord.tags = some (some ["AUTOSAR", "BSW"]) := by
  cases hb : buildAccount (buildRecord ["company_name", "tags"] ["Acme", "AUTOSAR; BSW, Unknown"]) "u" with
  | none => exact absurd hb (by decide)
  | some a =>
    have ht := tags_resolution_correct.1 _ "u" a hb
    show some a.tags = some (some ["AUTOSAR", "BSW"])
    rw [ht]
    decide

/-- Claim C7: the export serializer renders `null`/`undefined` as the empty
field (never a literal null marker), joins the tags array with semicolons
before quoting, and wraps values containing a comma, a double quote or a
newline in double quotes with internal double quotes doubled — shown on the
published test values. -/
theorem serialize_field_correct :
    (∀ header : String, serializeField header FieldValue.null = "") ∧
    (∀ header : String, serializeField header FieldValue.null ≠ "null") ∧
    (∀ vs : List String, serializeField "tags" (.arr vs) =
      escapeCSVField (String.intercalate ";" vs)) ∧
    serializeField "company_name" (.str "Acme, Inc.") = "\"Acme, Inc.\"" ∧
    serializeField "tags" (.arr ["FuSa", "OTA"]) = "FuSa;OTA" ∧
    serializeField "notes" (.str "say \"hi\"") = "\"say \"\"hi\"\"\"" := by
  have hnull : ∀ header : String, serializeField header FieldValue.null = "" := by
    intro header
    by_cases h : header = "tags" <;> simp [serializeField, h]
  refine ⟨hnull, ?_, ?_, by decide, by decide, by decide⟩
  · intro header
    rw [hnull header]
    decide
  · intro vs
    simp [serializeField, FieldValue.toStr]

/-- Claim C7 witness: a null email field serializes to the empty field and
not to a literal null marker. -/
theorem serialize_field_correct_w :
    serializeField "email" FieldValue.null = "" ∧
    serializeField "email" FieldValue.null ≠ "null" :=
  ⟨serialize_field_correct.1 "email", serialize_field_correct.2.1 "email"⟩

/-- Claim C8 counterexample: the fixed export header list does not have 18
entries. -/
theorem export_headers_not_eighteen :
    ¬ exportHeaders.length = 18 := by decide

/-- Claim C8 (amended): the export output begins with a fixed header row
consisting of exactly 17 published column names, independent of the exported
data. -/
theorem export_header_row_fixed :
    ∀ rows : List (String → FieldValue),
      (exportCSVLines rows).headI = String.intercalate "," exportHeaders ∧
      exportHeaders.length = 17 := by
  intro rows
  exact ⟨rfl, by decide⟩

/-- Claim C9 counterexample: a row that supplies `modified_by = "boss"` still
yields a record whose last-modifier is the acting user `"u"` — the
row-supplied last-modifier is not passed through. -/
theorem modified_by_not_passed_through :
    buildRecord ["company_name", "modified_by"] ["Acme", "boss"] "modified_by" = some "boss" ∧
    (buildAccount (buildRecord ["company_name", "modified_by"] ["Acme", "boss"]) "u").map
      AccountRecord.modified_by = some "u" ∧
    ("u" : String) ≠ "boss" := by
  refine ⟨by decide, by decide, by decide⟩

/-- Claim C9 (amended): the acting user's identifier is attached as creator
only when the source row did not supply one (a row-supplied `created_by`
passes through unchanged), while the last-modifier is always set to the
acting user, regardless of any row-supplied value. -/
theorem audit_fields_attachment :
    ∀ (r : String → Option String) (userId : String) (a : AccountRecord),
      buildAccount r userId = some a →
      a.created_by = (r "created_by").getD userId ∧
      a.modified_by = userId := by
  intro r userId a h
  cases hc : companyNameOf r with
  | none => simp [buildAccount, hc] at h
  | some cn =>
    simp only [buildAccount, hc, Option.some.injEq] at h
    subst h
    exact ⟨rfl, rfl⟩

/-- Claim C9 witness: a row supplying `created_by = "alice"` keeps that
creator while the last-modifier becomes the acting user. -/
theorem audit_fields_attachment_w :
    (buildAccount (buildRecord ["company_name", "created_by"] ["Acme", "alice"]) "u").map
      (fun a => (a.created_by, a.modified_by)) = some ("alice", "u") := by
  cases hb : buildAccount (buildRecord ["company_name", "created_by"] ["Acme", "alice"]) "u" with
  | none => exact absurd hb (by decide)
  | some a =>
    have h := audit_fields_attachment _ "u" a hb
    show some (a.created_by, a.modified_by) = some ("alice", "u")
    rw [h.1, h.2]
    decide

end AccountsCSV
